import Mathlib

/-!
# Verification model of `enhanced_pdf_splitter.py` (bluecld/unified-ocr-pipeline)

This file gives a shallow embedding of the split-point detection and PDF
splitting logic of `EnhancedPDFSplitter` and proves properties of it.

Modelling conventions:
* Python floats are modelled as exact rationals (`ℚ`); all confidence
  weights in the source are decimal literals, so the scoring arithmetic is
  faithfully represented by exact rational arithmetic.
* Regular-expression matching over page text is abstracted into per-pattern
  occurrence counts supplied as input data: a page is represented by the
  match counts the `re.findall` calls of the source would produce for it.
  The scoring logic downstream of those counts follows the source line by
  line.
* Filesystem effects (saving output sections, temp files) are modelled as
  explicit state, and exceptions raised by external calls (`doc.save`,
  `subprocess.run`) are modelled by fault-injection parameters; a raised
  exception follows the source's `try`/`except` structure.
-/

unseal Rat.add Rat.mul Rat.inv Rat.sub Rat.ofScientific

/-- Mirror of the `DetectionResult` dataclass (the `details` dict is used
only for logging and is omitted). Confidence is exact rational. -/
structure DetectionResult where
  page_num : Nat
  confidence : ℚ
  method : String
  evidence : String
deriving DecidableEq, Repr

/-! ## Method 1: `detect_by_text_patterns`

A page is abstracted by the `re.findall` occurrence counts of each router
pattern (grouped by strength tier as in `self.router_patterns`) and of each
PO pattern (`self.po_patterns`). The pattern lists of the source have fixed
lengths (5/5/5/6 router patterns and 10 PO patterns); the model allows any
lengths since the scoring loop is uniform in them. A blank page is one with
all-zero counts (the source `continue`s on blank pages, which is
behaviourally identical because all-zero counts score 0.0). -/
structure PageMatches where
  very_strong : List Nat
  strong : List Nat
  medium : List Nat
  weak : List Nat
  po : List Nat
deriving DecidableEq, Repr

/-- The inner loop `for pattern in patterns: ... confidence += matches * weight`
for one strength tier (additions happen only when `matches > 0`, exactly as
in the source's `if matches > 0` guard). -/
def tierConfidence (w : ℚ) (counts : List Nat) : ℚ :=
  counts.foldl (fun (acc : ℚ) (m : Nat) => if 0 < m then acc + (m : ℚ) * w else acc) 0

/-- `len(pattern_counts)`: the number of distinct router patterns with at
least one match on the page (the source stores one dict entry per pattern
with `matches > 0`; all 21 router pattern strings are distinct). -/
def distinctMatched (p : PageMatches) : Nat :=
  ((p.very_strong ++ p.strong ++ p.medium ++ p.weak).filter (fun m => 0 < m)).length

/-- `po_indicators`: total occurrence count over all PO patterns. -/
def poIndicators (p : PageMatches) : Nat :=
  p.po.foldl (· + ·) 0

/-- The per-page confidence accumulation of `detect_by_text_patterns`:
tier-weighted pattern counts, the PO penalty (`-0.2` if `po_indicators > 3`)
and the diversity bonus (`+0.1` if `len(pattern_counts) > 2`). -/
def pageRawConfidence (p : PageMatches) : ℚ :=
  let c := tierConfidence (1/2) p.very_strong + tierConfidence (3/10) p.strong
         + tierConfidence (1/5) p.medium + tierConfidence (1/10) p.weak
  let c := if 3 < poIndicators p then c - 1/5 else c
  if 2 < distinctMatched p then c + 1/10 else c

/-- The emission step at the end of the page loop:
`if confidence > 0.3: results.append(DetectionResult(..., min(confidence, 1.0), "text_patterns", ...))`.
Evidence strings are abstracted to `""` (they are logging text only). -/
def emitTextResult (i : Nat) (p : PageMatches) : Option DetectionResult :=
  if 3/10 < pageRawConfidence p then
    some ⟨i, min (pageRawConfidence p) 1, "text_patterns", ""⟩
  else none

/-- The page loop of `detect_by_text_patterns`, with exception injection:
`fault = some j` means an exception is raised while analysing the page at
loop index `j`. The whole loop sits inside one `try`, whose `except` catches
the exception after the results accumulated so far; those accumulated
results are then returned (the `results` list lives outside the `try`). -/
def textAux (fault : Option Nat) (i : Nat) : List PageMatches → List DetectionResult
  | [] => []
  | p :: ps =>
      if fault = some i then []
      else
        match emitTextResult i p with
        | some r => r :: textAux fault (i+1) ps
        | none => textAux fault (i+1) ps

/-- `detect_by_text_patterns` under an injected exception at loop index
`fault` (`none` = no exception occurs). -/
def detect_by_text_patterns_run (fault : Option Nat) (pages : List PageMatches) :
    List DetectionResult :=
  textAux fault 0 pages

/-- `detect_by_text_patterns` on a document whose pages produce the given
match counts, with no exception occurring. -/
def detect_by_text_patterns (pages : List PageMatches) : List DetectionResult :=
  detect_by_text_patterns_run none pages

example :
    detect_by_text_patterns [⟨[1], [], [], [], []⟩] =
      [⟨0, 1/2, "text_patterns", ""⟩] := by decide

example :
    detect_by_text_patterns [⟨[], [], [1], [1], [0]⟩] = [] := by decide

/-! ## Method 2: `detect_by_layout_analysis`

A page is abstracted by the layout features the source computes into
`page_info`: orientation (`landscape` iff `width > height`) and, when the
page has at least one text span, the dominant font, average font size and
text block count (those three `page_info` keys are set together under
`if text_blocks:`). `dominant_font` is `Option` because the source writes
`None` when the font list is empty. -/
structure LayoutInfo where
  dominant_font : Option String
  avg_font_size : ℚ
  text_block_count : Nat
deriving DecidableEq, Repr

/-- One page's `page_info` dict: orientation plus the optional text-derived
features. -/
structure PageLayout where
  landscape : Bool
  tinfo : Option LayoutInfo
deriving DecidableEq, Repr

/-- The confidence accumulated for a page compared with its predecessor
(the body of `if prev_page_info:`): orientation change `+0.6`; average font
size differing by more than 2 `+0.4`; dominant font change with both fonts
known `+0.3`; text-block count dropping by more than 40% `+0.3`. The three
text-derived checks all require both pages to carry the text-derived keys,
which the source sets together. -/
def pairLayoutConfidence (prev curr : PageLayout) : ℚ :=
  let c : ℚ := 0
  let c := if curr.landscape ≠ prev.landscape then c + 3/5 else c
  match prev.tinfo, curr.tinfo with
  | some pi, some ci =>
      let c := if 2 < |ci.avg_font_size - pi.avg_font_size| then c + 2/5 else c
      let c := if ci.dominant_font ≠ pi.dominant_font
                  ∧ ci.dominant_font.isSome ∧ pi.dominant_font.isSome then c + 3/10 else c
      if ((ci.text_block_count : ℚ) - (pi.text_block_count : ℚ))
            / (max pi.text_block_count 1 : ℕ) < -(2/5) then c + 3/10 else c
  | _, _ => c

/-- The page loop of `detect_by_layout_analysis` from the second page on:
each page is scored against its predecessor and reported when the
confidence exceeds 0.4, capped at 1.0. -/
def layoutAux (prev : PageLayout) : List PageLayout → Nat → List DetectionResult
  | [], _ => []
  | curr :: rest, i =>
      (if 2/5 < pairLayoutConfidence prev curr then
        [⟨i, min (pairLayoutConfidence prev curr) 1, "layout_analysis", ""⟩]
      else []) ++ layoutAux curr rest (i+1)

/-- `detect_by_layout_analysis`. On the first page `prev_page_info` is
`None`, so its confidence stays 0.0 and it is never reported (0.0 is not
greater than the 0.4 threshold); the explicit head split below reflects
that. -/
def detect_by_layout_analysis : List PageLayout → List DetectionResult
  | [] => []
  | p :: rest => layoutAux p rest 1

example :
    detect_by_layout_analysis [⟨false, none⟩, ⟨true, none⟩] =
      [⟨1, 3/5, "layout_analysis", ""⟩] := by decide

/-! ## Method 3: `detect_by_content_transition`

A page is abstracted by its `content_score` dict: the PO-pattern hit
count, the tier-weighted router-pattern hit count, and the counts of
operation-number, time-reference, machine-reference and measurement
matches. -/
structure ContentScore where
  po_content : Nat
  router_content : Nat
  numeric_ops : Nat
  time_references : Nat
  machine_references : Nat
  measurements : Nat
deriving DecidableEq, Repr

/-- The transition confidence for an adjacent page pair `(prev, curr)`:
`+0.7` when `po_drop > 2 and router_rise > 3`; `+0.3` when
`curr.numeric_ops > prev.numeric_ops + 1`; `+0.2` when
`curr.time_references > prev.time_references`; `+0.2` when
`curr.machine_references > prev.machine_references`; `+0.1` when
`curr.measurements > prev.measurements`. The drop/rise differences are
Python ints, hence `ℤ` here. -/
def pairContentConfidence (prev curr : ContentScore) : ℚ :=
  let po_drop : ℤ := (prev.po_content : ℤ) - (curr.po_content : ℤ)
  let router_rise : ℤ := (curr.router_content : ℤ) - (prev.router_content : ℤ)
  let c : ℚ := 0
  let c := if 2 < po_drop ∧ 3 < router_rise then c + 7/10 else c
  let c := if prev.numeric_ops + 1 < curr.numeric_ops then c + 3/10 else c
  let c := if prev.time_references < curr.time_references then c + 1/5 else c
  let c := if prev.machine_references < curr.machine_references then c + 1/5 else c
  if prev.measurements < curr.measurements then c + 1/10 else c

/-- The pair loop `for i in range(1, len(page_contents))`: the result for a
pair is recorded at the later page index `i` when the confidence exceeds
0.5, capped at 1.0. -/
def contentAux (prev : ContentScore) : List ContentScore → Nat → List DetectionResult
  | [], _ => []
  | curr :: rest, i =>
      (if 1/2 < pairContentConfidence prev curr then
        [⟨i, min (pairContentConfidence prev curr) 1, "content_transition", ""⟩]
      else []) ++ contentAux curr rest (i+1)

/-- `detect_by_content_transition` on the per-page content scores. -/
def detect_by_content_transition : List ContentScore → List DetectionResult
  | [] => []
  | c :: rest => contentAux c rest 1

example :
    detect_by_content_transition [⟨5, 0, 0, 0, 0, 0⟩, ⟨0, 10, 0, 0, 0, 0⟩] =
      [⟨1, 7/10, "content_transition", ""⟩] := by decide

/-! ## Aggregation: the `page_scores` grouping and best-candidate loop of
`find_optimal_split_point`

`page_scores` is a Python dict keyed by page number; dict iteration order
is first-insertion order, so it is modelled as an association list to which
results are appended in the order they occur in `all_results`. -/

/-- Processing one `result` of the grouping loop: append it to the entry of
its page, creating the entry at the end on first occurrence (Python dict
insertion order). -/
def addResult (groups : List (Nat × List DetectionResult)) (r : DetectionResult) :
    List (Nat × List DetectionResult) :=
  match groups with
  | [] => [(r.page_num, [r])]
  | g :: gs => if g.1 = r.page_num then (g.1, g.2 ++ [r]) :: gs else g :: addResult gs r

/-- The whole grouping loop over `all_results`. -/
def groupByPage (results : List DetectionResult) : List (Nat × List DetectionResult) :=
  results.foldl addResult []

/-- The combined score of one page's grouped results:
`avg_confidence = total_confidence / method_count` plus the method-agreement
bonus `(len(set(methods)) - 1) * 0.1` (an `int` subtraction in the source,
hence `ℤ`). -/
def pageScore (rs : List DetectionResult) : ℚ :=
  (rs.map (·.confidence)).sum / (rs.length : ℚ)
    + ((((rs.map (·.method)).dedup.length : ℤ) - 1 : ℤ) : ℚ) * (1/10)

/-- One step of the best-candidate loop: replace the running best only on a
strictly greater combined score (`if final_confidence > best_confidence`). -/
def bestStep (best : Option Nat × ℚ) (g : Nat × List DetectionResult) : Option Nat × ℚ :=
  if best.2 < pageScore g.2 then (some g.1, pageScore g.2) else best

/-- The best-candidate loop over `page_scores`, starting from
`best_page = None`, `best_confidence = 0.0`. -/
def findBest (groups : List (Nat × List DetectionResult)) : Option Nat × ℚ :=
  groups.foldl bestStep (none, 0)

/-! ## `find_optimal_split_point` and `split_pdf_enhanced` -/

/-- Abstraction of one input document as the detection functions see it:
the page count, the result of `detect_po_length_from_page_indicators`
(`some n` iff a "page 1 of n" marker was matched on the first page), and
the per-page data each heuristic detector extracts. -/
structure DocModel where
  totalPages : Nat
  poLength : Option Nat
  textPages : List PageMatches
  layoutPages : List PageLayout
  contentScores : List ContentScore

/-- `find_optimal_split_point`: the page-indicator fast path short-circuits
with confidence 1.0; otherwise the three heuristic detectors run, their
results are grouped and the best candidate is chosen. Explanation strings
are abstracted (the source interpolates logging text). -/
def find_optimal_split_point (d : DocModel) : Option Nat × ℚ × String :=
  match d.poLength with
  | some n =>
      if n < d.totalPages then
        (some n, 1, "based on page indicator")
      else
        (none, 1, "document contains only PO pages")
  | none =>
      let all_results := detect_by_text_patterns d.textPages
        ++ detect_by_layout_analysis d.layoutPages
        ++ detect_by_content_transition d.contentScores
      if all_results.isEmpty then
        (none, 0, "no router section detected by any method")
      else
        let best := findBest (groupByPage all_results)
        (best.1, best.2, "multi-method detection")

/-- The two output destinations of `split_pdf_enhanced`, as the page-index
ranges written to each (a `none` file was never saved). -/
structure OutFS where
  poFile : Option (List Nat)
  routerFile : Option (List Nat)
deriving DecidableEq, Repr

/-- The decision-and-persistence stage of `split_pdf_enhanced`, with fault
injection on the two `doc.save` calls:
`failPo`/`failRouter` mean the save of that output raises. A raising save
writes nothing (the charitable reading of one `save` call as a single
write), the exception propagates to the function's `except` handler, and
everything already saved stays on disk. `insert_pdf(doc, from_page=a,
to_page=b)` copies the inclusive page range, so the PO section is
`[0, split_point)` and the router section `[split_point, total_pages)`;
the no-split branch copies the entire document into the PO output. -/
def splitExec (split_point : Option Nat) (confidence : ℚ) (total_pages : Nat)
    (min_confidence : ℚ) (failPo failRouter : Bool) : (Bool × String) × OutFS :=
  match split_point with
  | none =>
      if failPo then ((false, "Enhanced PDF splitting failed"), ⟨none, none⟩)
      else ((true, "no confident split point found, saved entire document as PO"),
        ⟨some (List.range' 0 total_pages), none⟩)
  | some p =>
      if confidence < min_confidence then
        if failPo then ((false, "Enhanced PDF splitting failed"), ⟨none, none⟩)
        else ((true, "no confident split point found, saved entire document as PO"),
          ⟨some (List.range' 0 total_pages), none⟩)
      else
        let fs0 : OutFS := ⟨none, none⟩
        if 0 < p then
          if failPo then ((false, "Enhanced PDF splitting failed"), fs0)
          else
            let fs1 : OutFS := { fs0 with poFile := some (List.range' 0 p) }
            if p < total_pages then
              if failRouter then ((false, "Enhanced PDF splitting failed"), fs1)
              else ((true, "successfully split"),
                { fs1 with routerFile := some (List.range' p (total_pages - p)) })
            else ((true, "successfully split"), fs1)
        else
          if p < total_pages then
            if failRouter then ((false, "Enhanced PDF splitting failed"), fs0)
            else ((true, "successfully split"),
              { fs0 with routerFile := some (List.range' p (total_pages - p)) })
          else ((true, "successfully split"), fs0)

/-- `split_pdf_enhanced` proper: run detection, then execute the decision
on the document's pages. -/
def split_pdf_enhanced (d : DocModel) (min_confidence : ℚ)
    (failPo failRouter : Bool) : (Bool × String) × OutFS :=
  splitExec (find_optimal_split_point d).1 (find_optimal_split_point d).2.1
    d.totalPages min_confidence failPo failRouter

example :
    split_pdf_enhanced ⟨3, some 1, [], [], []⟩ (7/10) false false =
      ((true, "successfully split"), ⟨some [0], some [1, 2]⟩) := by decide

example :
    split_pdf_enhanced ⟨3, some 5, [], [], []⟩ (7/10) false false =
      ((true, "no confident split point found, saved entire document as PO"),
        ⟨some [0, 1, 2], none⟩) := by decide

/-! ## `ocr_single_page` temporary-file model -/

/-- Which of the two temporary files of `ocr_single_page`
(`temp_page_{n}.pdf` and `temp_page_{n}.ocr.pdf`) exist. -/
structure TempFS where
  tempPdf : Bool
  tempOcr : Bool
deriving DecidableEq, Repr

/-- Outcome of the `subprocess.run(["ocrmypdf", ...], timeout=60)` call:
it returns with code 0 and the recognised text, returns with a nonzero
code, or raises (for example `subprocess.TimeoutExpired` after 60s). -/
inductive OcrOutcome where
  | ok (text : String)
  | fail
  | raised
deriving DecidableEq, Repr

/-- `ocr_single_page`, tracking the temporary files. The early return for
an out-of-range page creates nothing. Otherwise the single-page rendition
`temp_pdf` is saved, then `ocrmypdf` runs: on return code 0 it has written
`temp_ocr`, the text is extracted and both temp files are unlinked; on a
nonzero return code both are unlinked (`missing_ok=True`); if the call
raises, control jumps to the `except` handler which logs and returns `""`
without any cleanup. -/
def ocr_single_page (totalPages pageNum : Nat) (outcome : OcrOutcome) : String × TempFS :=
  if totalPages ≤ pageNum then ("", ⟨false, false⟩)
  else
    let fs1 : TempFS := ⟨true, false⟩
    match outcome with
    | .ok t =>
        let fs2 := { fs1 with tempOcr := true }
        (t, { fs2 with tempPdf := false, tempOcr := false })
    | .fail =>
        ("", { fs1 with tempPdf := false, tempOcr := false })
    | .raised =>
        ("", fs1)

/-! ## Exception injection for the two pair-based detectors

Like `textAux`, the loops of `detect_by_layout_analysis` and
`detect_by_content_transition` each sit inside one `try` whose `except`
catches an exception raised at any loop iteration, returning the results
accumulated so far (the `results` list lives outside the `try`). -/

/-- The layout pair loop with exception injection: `fault = some j` means
an exception is raised while analysing the page at loop index `j` (for
example inside `page.get_text("dict")` or the pair scoring). -/
def layoutAuxRun (fault : Option Nat) (prev : PageLayout) :
    List PageLayout → Nat → List DetectionResult
  | [], _ => []
  | curr :: rest, i =>
      if fault = some i then []
      else
        (if 2/5 < pairLayoutConfidence prev curr then
          [⟨i, min (pairLayoutConfidence prev curr) 1, "layout_analysis", ""⟩]
        else []) ++ layoutAuxRun fault curr rest (i+1)

/-- `detect_by_layout_analysis` under an injected exception at loop index
`fault` (`none` = no exception occurs). An exception at page 0 aborts
before any pair is scored. -/
def detect_by_layout_analysis_run (fault : Option Nat) :
    List PageLayout → List DetectionResult
  | [] => []
  | p :: rest => if fault = some 0 then [] else layoutAuxRun fault p rest 1

/-- The content pair loop with exception injection: `fault = some j`
models an exception raised either while scoring page `j` in the first
(per-page) loop or at pair index `j` in the second loop; both abort the
method with exactly the results of the pairs before index `j`. -/
def contentAuxRun (fault : Option Nat) (prev : ContentScore) :
    List ContentScore → Nat → List DetectionResult
  | [], _ => []
  | curr :: rest, i =>
      if fault = some i then []
      else
        (if 1/2 < pairContentConfidence prev curr then
          [⟨i, min (pairContentConfidence prev curr) 1, "content_transition", ""⟩]
        else []) ++ contentAuxRun fault curr rest (i+1)

/-- `detect_by_content_transition` under an injected exception at loop
index `fault` (`none` = no exception occurs). -/
def detect_by_content_transition_run (fault : Option Nat) :
    List ContentScore → List DetectionResult
  | [] => []
  | c :: rest => if fault = some 0 then [] else contentAuxRun fault c rest 1

/-- The combined heuristic pass of `find_optimal_split_point`
(`all_results = text_results + layout_results + content_results`), with an
optional injected exception in each of the three detectors; each detector
call sits inside its own `try`, so a fault in one cannot reach the
others. `find_optimal_split_point` corresponds to the fault-free run. -/
def heuristic_results_run (tf lf cf : Option Nat) (d : DocModel) : List DetectionResult :=
  detect_by_text_patterns_run tf d.textPages
    ++ detect_by_layout_analysis_run lf d.layoutPages
    ++ detect_by_content_transition_run cf d.contentScores

/-! ## Claims -/

/-- C1: if the Page-Count Indicator Detector finds a "page 1 of N" marker,
`find_optimal_split_point` returns `(N, 1.0, ...)` when `totalPages > N` and
`(None, 1.0, ...)` when `totalPages <= N`, and the heuristic detectors'
inputs have no influence on the result. -/
theorem C1_page_indicator_short_circuit (d : DocModel) (n : Nat)
    (h : d.poLength = some n) :
    (n < d.totalPages →
      (find_optimal_split_point d).1 = some n ∧ (find_optimal_split_point d).2.1 = 1) ∧
    (d.totalPages ≤ n →
      (find_optimal_split_point d).1 = none ∧ (find_optimal_split_point d).2.1 = 1) ∧
    (∀ tp lp cs,
      find_optimal_split_point { d with textPages := tp, layoutPages := lp, contentScores := cs }
        = find_optimal_split_point d) := by
  refine ⟨fun hlt => ?_, fun hle => ?_, fun tp lp cs => ?_⟩
  · simp [find_optimal_split_point, h, hlt]
  · simp [find_optimal_split_point, h, Nat.not_lt.mpr hle]
  · simp [find_optimal_split_point, h]

/-- Witness for C1 at a concrete document: marker "page 1 of 2" on a
3-page document splits at page 2 with confidence 1. -/
theorem C1_witness :
    (find_optimal_split_point ⟨3, some 2, [], [], []⟩).1 = some 2 ∧
    (find_optimal_split_point ⟨3, some 2, [], [], []⟩).2.1 = 1 :=
  (C1_page_indicator_short_circuit ⟨3, some 2, [], [], []⟩ 2 rfl).1 (by decide)

/-- C3: the claim says the temporary single-page renditions are deleted on
every exit path of `ocr_single_page`. The code deletes them on the success
and nonzero-return paths, but the `except` handler reached when the OCR
subprocess raises (for example on timeout) returns `""` without deleting
`temp_page_N.pdf`, so the temp-file set after the call differs from the one
before it. -/
theorem C3_temp_file_left_by_exception_path :
    ocr_single_page 2 0 .raised = ("", ⟨true, false⟩) ∧
    (ocr_single_page 2 0 (.ok "some text")).2 = ⟨false, false⟩ ∧
    (ocr_single_page 2 0 .fail).2 = ⟨false, false⟩ ∧
    (⟨true, false⟩ : TempFS) ≠ ⟨false, false⟩ := by decide

/-- C2 counterexample: the two sections are persisted sequentially, so when
the router save raises after the PO save succeeded, the call returns
`(false, ...)` but the PO section file is left written for that attempt,
contradicting "neither section file is left written". -/
theorem C2_counterexample :
    (split_pdf_enhanced ⟨2, some 1, [], [], []⟩ (7/10) false true).1.1 = false ∧
    (split_pdf_enhanced ⟨2, some 1, [], [], []⟩ (7/10) false true).2.poFile = some [0] := by
  decide

/-- C2 (amended): if an exception occurs while persisting the output
sections, the call returns `(false, explanation)` and the failing save
itself writes nothing — but a section that was already persisted before the
exception (the PO section, saved first) remains written. -/
theorem C2_persistence_failure (d : DocModel) (c : ℚ) (fp fr : Bool)
    (h : (split_pdf_enhanced d c fp fr).1.1 = false) :
    (fp = true ∨ fr = true) ∧
    (fp = true → (split_pdf_enhanced d c fp fr).2.poFile = none) ∧
    (fr = true → (split_pdf_enhanced d c fp fr).2.routerFile = none) ∧
    (fp = false → ∃ p, (find_optimal_split_point d).1 = some p ∧ p < d.totalPages ∧
      (split_pdf_enhanced d c fp fr).2.poFile =
        if 0 < p then some (List.range' 0 p) else none) := by
  unfold split_pdf_enhanced at h ⊢
  cases hsp : (find_optimal_split_point d).1 with
  | none =>
      rw [hsp] at h
      cases fp with
      | false => exact absurd h (by simp [splitExec])
      | true =>
          exact ⟨Or.inl rfl, fun _ => by simp [splitExec],
            fun _ => by simp [splitExec], fun hfp => absurd hfp (by decide)⟩
  | some p =>
      rw [hsp] at h
      by_cases hcc : (find_optimal_split_point d).2.1 < c
      · cases fp with
        | false => exact absurd h (by simp [splitExec, hcc])
        | true =>
            exact ⟨Or.inl rfl, fun _ => by simp [splitExec, hcc],
              fun _ => by simp [splitExec, hcc], fun hfp => absurd hfp (by decide)⟩
      · by_cases hp0 : 0 < p
        · by_cases hpt : p < d.totalPages
          · cases fp with
            | true =>
                exact ⟨Or.inl rfl, fun _ => by simp [splitExec, hcc, hp0, hpt],
                  fun _ => by simp [splitExec, hcc, hp0, hpt], fun hfp => absurd hfp (by decide)⟩
            | false =>
                cases fr with
                | false => exact absurd h (by simp [splitExec, hcc, hp0, hpt])
                | true =>
                    refine ⟨Or.inr rfl, fun hfp => absurd hfp (by decide),
                      fun _ => by simp [splitExec, hcc, hp0, hpt], fun _ => ?_⟩
                    exact ⟨p, rfl, hpt, by simp [splitExec, hcc, hp0, hpt]⟩
          · cases fp with
            | true =>
                exact ⟨Or.inl rfl, fun _ => by simp [splitExec, hcc, hp0, hpt],
                  fun _ => by simp [splitExec, hcc, hp0, hpt], fun hfp => absurd hfp (by decide)⟩
            | false => exact absurd h (by simp [splitExec, hcc, hp0, hpt])
        · by_cases hpt : p < d.totalPages
          · cases fr with
            | false => exact absurd h (by simp [splitExec, hcc, hp0, hpt])
            | true =>
                refine ⟨Or.inr rfl, fun _ => by simp [splitExec, hcc, hp0, hpt],
                  fun _ => by simp [splitExec, hcc, hp0, hpt], fun _ => ?_⟩
                exact ⟨p, rfl, hpt, by simp [splitExec, hcc, hp0, hpt]⟩
          · exact absurd h (by simp [splitExec, hcc, hp0, hpt])

/-- Witness for C2's amended theorem at the counterexample input: with a
failing router save the call fails, the router file is unwritten, and the
PO file holds page 0. -/
theorem C2_witness :
    (false = true ∨ true = true) ∧
    (false = true →
      (split_pdf_enhanced ⟨2, some 1, [], [], []⟩ (7/10) false true).2.poFile = none) ∧
    (true = true →
      (split_pdf_enhanced ⟨2, some 1, [], [], []⟩ (7/10) false true).2.routerFile = none) ∧
    (false = false → ∃ p,
      (find_optimal_split_point ⟨2, some 1, [], [], []⟩).1 = some p ∧
      p < (⟨2, some 1, [], [], []⟩ : DocModel).totalPages ∧
      (split_pdf_enhanced ⟨2, some 1, [], [], []⟩ (7/10) false true).2.poFile =
        if 0 < p then some (List.range' 0 p) else none) :=
  C2_persistence_failure ⟨2, some 1, [], [], []⟩ (7/10) false true (by decide)

/-- C7: when the winning page is `None` or its confidence is strictly below
the caller's threshold, the call writes the entire document, in order, as
the single PO-section output, writes no router output, and reports
success (here with no persistence fault injected). -/
theorem C7_no_split_writes_whole_document (d : DocModel) (c : ℚ)
    (h : (find_optimal_split_point d).1 = none ∨ (find_optimal_split_point d).2.1 < c) :
    split_pdf_enhanced d c false false =
      ((true, "no confident split point found, saved entire document as PO"),
       ⟨some (List.range' 0 d.totalPages), none⟩) := by
  unfold split_pdf_enhanced
  rcases h with h | h
  · rw [h]; rfl
  · cases hsp : (find_optimal_split_point d).1 with
    | none => rfl
    | some p =>
        simp only [splitExec]
        rw [if_pos h]; rfl

/-- Witness for C7: a document whose page marker says it is all PO pages
is saved whole as the PO output. -/
theorem C7_witness :
    split_pdf_enhanced ⟨3, some 5, [], [], []⟩ (7/10) false false =
      ((true, "no confident split point found, saved entire document as PO"),
       ⟨some (List.range' 0 3), none⟩) :=
  C7_no_split_writes_whole_document ⟨3, some 5, [], [], []⟩ (7/10) (Or.inl (by decide))

/-- C9: lowering the threshold never turns a split into a non-split nor
changes the split page: if the detection result passes threshold `t1` and
`t2 < t1`, it passes `t2` and `split_pdf_enhanced` behaves identically. -/
theorem C9_threshold_monotonic (d : DocModel) (t1 t2 : ℚ) (p : Nat) (fp fr : Bool)
    (hlt : t2 < t1)
    (hsome : (find_optimal_split_point d).1 = some p)
    (hconf : ¬ (find_optimal_split_point d).2.1 < t1) :
    ¬ (find_optimal_split_point d).2.1 < t2 ∧
    split_pdf_enhanced d t2 fp fr = split_pdf_enhanced d t1 fp fr := by
  have h2 : ¬ (find_optimal_split_point d).2.1 < t2 := fun hc => hconf (hc.trans hlt)
  refine ⟨h2, ?_⟩
  unfold split_pdf_enhanced
  rw [hsome]
  simp only [splitExec]
  rw [if_neg hconf, if_neg h2]

/-- Witness for C9: a document splitting at page 1 with confidence 1 under
threshold 0.7 splits identically under threshold 0.5. -/
theorem C9_witness :
    ¬ (find_optimal_split_point ⟨3, some 1, [], [], []⟩).2.1 < 1/2 ∧
    split_pdf_enhanced ⟨3, some 1, [], [], []⟩ (1/2) false false =
      split_pdf_enhanced ⟨3, some 1, [], [], []⟩ (7/10) false false :=
  C9_threshold_monotonic ⟨3, some 1, [], [], []⟩ (7/10) (1/2) 1 false false
    (by decide) (by decide) (by decide)

/-- Helper for C4: an exception at loop index `i + k` truncates the text
detector's output to what the first `k` remaining pages produce. -/
lemma textAux_fault_take (ps : List PageMatches) : ∀ (i k : Nat),
    textAux (some (i + k)) i ps = textAux none i (ps.take k) := by
  induction ps with
  | nil => intro i k; simp [textAux]
  | cons p ps ih =>
      intro i k
      cases k with
      | zero => simp [textAux]
      | succ k =>
          have hne : (some (i + (k+1)) : Option Nat) ≠ some i := by
            simp
          have hnone : (none : Option Nat) ≠ some i := by simp
          rw [List.take_succ_cons]
          simp only [textAux, if_neg hne, if_neg hnone]
          have harith : i + (k+1) = (i+1) + k := by omega
          rw [harith, ih (i+1) k]

/-- An exception at loop index `j` truncates the text detector's output to
the pages before the fault. -/
lemma detect_by_text_patterns_run_take (pages : List PageMatches) (j : Nat) :
    detect_by_text_patterns_run (some j) pages = detect_by_text_patterns (pages.take j) := by
  have h := textAux_fault_take pages 0 j
  simpa [detect_by_text_patterns_run, detect_by_text_patterns] using h

/-- The fault-free text-detector run is the detector itself. -/
lemma detect_by_text_patterns_run_none (pages : List PageMatches) :
    detect_by_text_patterns_run none pages = detect_by_text_patterns pages := rfl

/-- The fault-free layout pair loop is the plain one. -/
lemma layoutAuxRun_none (rest : List PageLayout) : ∀ (prev : PageLayout) (i : Nat),
    layoutAuxRun none prev rest i = layoutAux prev rest i := by
  induction rest with
  | nil => intro prev i; rfl
  | cons curr rest ih =>
      intro prev i
      have hnone : (none : Option Nat) ≠ some i := by simp
      simp only [layoutAuxRun, layoutAux, if_neg hnone]
      rw [ih curr (i+1)]

/-- Helper for C4: an exception at loop index `i + k` truncates the layout
pair loop's output to what the first `k` remaining pages produce. -/
lemma layoutAuxRun_fault_take (rest : List PageLayout) : ∀ (prev : PageLayout) (i k : Nat),
    layoutAuxRun (some (i + k)) prev rest i = layoutAux prev (rest.take k) i := by
  induction rest with
  | nil => intro prev i k; simp [layoutAuxRun, layoutAux]
  | cons curr rest ih =>
      intro prev i k
      cases k with
      | zero => simp [layoutAuxRun, layoutAux]
      | succ k =>
          have hne : (some (i + (k+1)) : Option Nat) ≠ some i := by simp
          rw [List.take_succ_cons]
          simp only [layoutAuxRun, layoutAux, if_neg hne]
          have harith : i + (k+1) = (i+1) + k := by omega
          rw [harith, ih curr (i+1) k]

/-- The fault-free layout-detector run is the detector itself. -/
lemma detect_by_layout_analysis_run_none (pages : List PageLayout) :
    detect_by_layout_analysis_run none pages = detect_by_layout_analysis pages := by
  cases pages with
  | nil => rfl
  | cons p rest =>
      have hnone : (none : Option Nat) ≠ some 0 := by simp
      simp only [detect_by_layout_analysis_run, detect_by_layout_analysis, if_neg hnone]
      exact layoutAuxRun_none rest p 1

/-- An exception at loop index `j` truncates the layout detector's output
to the pages before the fault. -/
lemma detect_by_layout_analysis_run_take (pages : List PageLayout) (j : Nat) :
    detect_by_layout_analysis_run (some j) pages = detect_by_layout_analysis (pages.take j) := by
  cases pages with
  | nil => simp [detect_by_layout_analysis_run, detect_by_layout_analysis]
  | cons p rest =>
      cases j with
      | zero => rfl
      | succ k =>
          have hne : (some (k+1) : Option Nat) ≠ some 0 := by simp
          rw [List.take_succ_cons]
          simp only [detect_by_layout_analysis_run, detect_by_layout_analysis, if_neg hne]
          have harith : k + 1 = 1 + k := by omega
          rw [harith]
          exact layoutAuxRun_fault_take rest p 1 k

/-- The fault-free content pair loop is the plain one. -/
lemma contentAuxRun_none (rest : List ContentScore) : ∀ (prev : ContentScore) (i : Nat),
    contentAuxRun none prev rest i = contentAux prev rest i := by
  induction rest with
  | nil => intro prev i; rfl
  | cons curr rest ih =>
      intro prev i
      have hnone : (none : Option Nat) ≠ some i := by simp
      simp only [contentAuxRun, contentAux, if_neg hnone]
      rw [ih curr (i+1)]

/-- Helper for C4: an exception at loop index `i + k` truncates the
content pair loop's output to what the first `k` remaining pages produce. -/
lemma contentAuxRun_fault_take (rest : List ContentScore) : ∀ (prev : ContentScore) (i k : Nat),
    contentAuxRun (some (i + k)) prev rest i = contentAux prev (rest.take k) i := by
  induction rest with
  | nil => intro prev i k; simp [contentAuxRun, contentAux]
  | cons curr rest ih =>
      intro prev i k
      cases k with
      | zero => simp [contentAuxRun, contentAux]
      | succ k =>
          have hne : (some (i + (k+1)) : Option Nat) ≠ some i := by simp
          rw [List.take_succ_cons]
          simp only [contentAuxRun, contentAux, if_neg hne]
          have harith : i + (k+1) = (i+1) + k := by omega
          rw [harith, ih curr (i+1) k]

/-- The fault-free content-detector run is the detector itself. -/
lemma detect_by_content_transition_run_none (scores : List ContentScore) :
    detect_by_content_transition_run none scores = detect_by_content_transition scores := by
  cases scores with
  | nil => rfl
  | cons c rest =>
      have hnone : (none : Option Nat) ≠ some 0 := by simp
      simp only [detect_by_content_transition_run, detect_by_content_transition, if_neg hnone]
      exact contentAuxRun_none rest c 1

/-- An exception at loop index `j` truncates the content detector's output
to the pages before the fault. -/
lemma detect_by_content_transition_run_take (scores : List ContentScore) (j : Nat) :
    detect_by_content_transition_run (some j) scores
      = detect_by_content_transition (scores.take j) := by
  cases scores with
  | nil => simp [detect_by_content_transition_run, detect_by_content_transition]
  | cons c rest =>
      cases j with
      | zero => rfl
      | succ k =>
          have hne : (some (k+1) : Option Nat) ≠ some 0 := by simp
          rw [List.take_succ_cons]
          simp only [detect_by_content_transition_run, detect_by_content_transition, if_neg hne]
          have harith : k + 1 = 1 + k := by omega
          rw [harith]
          exact contentAuxRun_fault_take rest c 1 k

/-- C4 (amended): an exception inside any individual heuristic detector —
text patterns, layout analysis or content transition — is caught at that
detector's whole-method scope, not per page: the detector returns exactly
the results accumulated for the pages before the faulting loop iteration,
and its analysis of all later pages is abandoned; and since each detector
call sits in its own `try`, a fault in one detector leaves the other two
detectors' contributions to the combined result list completely
unchanged. -/
theorem C4_detector_exception_method_scope
    (tp : List PageMatches) (lp : List PageLayout) (cs : List ContentScore)
    (d : DocModel) (j : Nat) :
    detect_by_text_patterns_run (some j) tp = detect_by_text_patterns (tp.take j) ∧
    detect_by_layout_analysis_run (some j) lp = detect_by_layout_analysis (lp.take j) ∧
    detect_by_content_transition_run (some j) cs = detect_by_content_transition (cs.take j) ∧
    heuristic_results_run (some j) none none d
      = detect_by_text_patterns (d.textPages.take j)
        ++ detect_by_layout_analysis d.layoutPages
        ++ detect_by_content_transition d.contentScores ∧
    heuristic_results_run none (some j) none d
      = detect_by_text_patterns d.textPages
        ++ detect_by_layout_analysis (d.layoutPages.take j)
        ++ detect_by_content_transition d.contentScores ∧
    heuristic_results_run none none (some j) d
      = detect_by_text_patterns d.textPages
        ++ detect_by_layout_analysis d.layoutPages
        ++ detect_by_content_transition (d.contentScores.take j) := by
  refine ⟨detect_by_text_patterns_run_take tp j,
    detect_by_layout_analysis_run_take lp j,
    detect_by_content_transition_run_take cs j, ?_, ?_, ?_⟩ <;>
    simp only [heuristic_results_run, detect_by_text_patterns_run_take,
      detect_by_text_patterns_run_none, detect_by_layout_analysis_run_take,
      detect_by_layout_analysis_run_none, detect_by_content_transition_run_take,
      detect_by_content_transition_run_none]

/-- C4 counterexample: with an exception at page index 1 of a three-page
document, page 0's result survives but page 2 — which the detector would
flag when run without the exception — produces no result, contradicting
"the same detector's analysis of all other pages still proceeds and its
results for those other pages are still produced". -/
theorem C4_counterexample :
    detect_by_text_patterns_run (some 1)
        [⟨[1], [], [], [], []⟩, ⟨[], [], [], [], []⟩, ⟨[1], [], [], [], []⟩] =
      [⟨0, 1/2, "text_patterns", ""⟩] ∧
    ⟨2, 1/2, "text_patterns", ""⟩ ∈ detect_by_text_patterns
        [⟨[1], [], [], [], []⟩, ⟨[], [], [], [], []⟩, ⟨[1], [], [], [], []⟩] ∧
    ∀ r ∈ detect_by_text_patterns_run (some 1)
        [⟨[1], [], [], [], []⟩, ⟨[], [], [], [], []⟩, ⟨[1], [], [], [], []⟩],
      r.page_num ≠ 2 := by decide

/-- The Text Pattern Detector confidence as the spec words it: the sum
over router patterns of occurrence count times tier weight, minus the
fixed 0.2 penalty when the total PO-pattern count exceeds 3, plus the 0.1
bonus when three or more distinct patterns matched. For comparison with
`pageRawConfidence`. -/
def textWeightedSum (p : PageMatches) : ℚ :=
  (p.very_strong.sum : ℚ) * (1/2) + (p.strong.sum : ℚ) * (3/10)
    + (p.medium.sum : ℚ) * (1/5) + (p.weak.sum : ℚ) * (1/10)
    - (if 3 < poIndicators p then 1/5 else 0)
    + (if 2 < distinctMatched p then 1/10 else 0)

/-- The per-tier accumulation loop computes exactly tier-sum times weight. -/
lemma tierConfidence_eq_sum (w : ℚ) (l : List Nat) :
    tierConfidence w l = (l.sum : ℚ) * w := by
  have key : ∀ (l : List Nat) (a : ℚ),
      l.foldl (fun (acc : ℚ) (m : Nat) => if 0 < m then acc + (m : ℚ) * w else acc) a
        = a + (l.sum : ℚ) * w := by
    intro l
    induction l with
    | nil => intro a; simp
    | cons m l ih =>
        intro a
        simp only [List.foldl_cons, List.sum_cons]
        by_cases hm : 0 < m
        · rw [if_pos hm, ih]
          push_cast
          ring
        · rw [if_neg hm]
          have hm0 : m = 0 := by omega
          subst hm0
          rw [ih]
          push_cast
          ring
  rw [tierConfidence, key]
  simp

/-- The imperative accumulation of `detect_by_text_patterns` equals the
closed-form weighted sum of the spec. -/
lemma pageRawConfidence_eq (p : PageMatches) :
    pageRawConfidence p = textWeightedSum p := by
  simp only [pageRawConfidence, textWeightedSum, tierConfidence_eq_sum]
  split_ifs <;> ring

/-- The fault-free text-detector loop enumerates pages and keeps exactly
the pages passing the emission test. -/
lemma textAux_none_eq_enumFrom (ps : List PageMatches) : ∀ i,
    textAux none i ps = (ps.enumFrom i).filterMap (fun x => emitTextResult x.1 x.2) := by
  induction ps with
  | nil => intro i; simp [textAux, List.enumFrom]
  | cons p ps ih =>
      intro i
      have hnone : (none : Option Nat) ≠ some i := by simp
      simp only [textAux, if_neg hnone, List.enumFrom, List.filterMap_cons]
      cases he : emitTextResult i p with
      | none => simp [he, ih (i+1)]
      | some r => simp [he, ih (i+1)]

/-- C8: for every page, the text-pattern confidence equals the tier-weighted
occurrence sum with the PO penalty and diversity bonus; the emitted value
is that sum capped at 1 (hence in [0,1]), and a page is reported exactly
when the sum exceeds 0.3. -/
theorem C8_text_pattern_scoring (pages : List PageMatches) :
    detect_by_text_patterns pages =
      pages.enum.filterMap (fun x =>
        if 3/10 < textWeightedSum x.2 then
          some ⟨x.1, min (textWeightedSum x.2) 1, "text_patterns", ""⟩
        else none) ∧
    ∀ r ∈ detect_by_text_patterns pages, 0 ≤ r.confidence ∧ r.confidence ≤ 1 := by
  have heq : detect_by_text_patterns pages
      = (pages.enumFrom 0).filterMap (fun x => emitTextResult x.1 x.2) :=
    textAux_none_eq_enumFrom pages 0
  have hfun : (fun x : Nat × PageMatches => emitTextResult x.1 x.2)
      = (fun x => if 3/10 < textWeightedSum x.2 then
          some ⟨x.1, min (textWeightedSum x.2) 1, "text_patterns", ""⟩
        else none) := by
    funext x
    simp only [emitTextResult, pageRawConfidence_eq]
  constructor
  · rw [heq, hfun]
    rfl
  · intro r hr
    rw [heq] at hr
    rcases List.mem_filterMap.mp hr with ⟨x, _, hfx⟩
    simp only [emitTextResult] at hfx
    by_cases hgt : 3/10 < pageRawConfidence x.2
    · rw [if_pos hgt] at hfx
      cases hfx
      constructor
      · exact le_min (le_of_lt (lt_trans (by norm_num) hgt)) zero_le_one
      · exact min_le_right _ _
    · rw [if_neg hgt] at hfx
      exact absurd hfx (by simp)

/-- Witness for C8 at a concrete page: one very-strong match yields a
result of confidence 1/2, inside [0,1]. -/
theorem C8_witness :
    0 ≤ (⟨0, 1/2, "text_patterns", ""⟩ : DetectionResult).confidence ∧
    (⟨0, 1/2, "text_patterns", ""⟩ : DetectionResult).confidence ≤ 1 :=
  (C8_text_pattern_scoring [⟨[1], [], [], [], []⟩]).2
    ⟨0, 1/2, "text_patterns", ""⟩ (by decide)

/-- The Content Transition confidence exactly as claim C6 words it: the
time and machine bonuses apply only to newly appearing references (absent
on the previous page, present on the current one). For comparison with
`pairContentConfidence`. -/
def claimedContentPairConfidence (prev curr : ContentScore) : ℚ :=
  (if 2 < (prev.po_content : ℤ) - (curr.po_content : ℤ)
      ∧ 3 < (curr.router_content : ℤ) - (prev.router_content : ℤ) then (7/10 : ℚ) else 0)
    + (if prev.numeric_ops + 1 < curr.numeric_ops then 3/10 else 0)
    + (if prev.time_references = 0 ∧ 0 < curr.time_references then 1/5 else 0)
    + (if prev.machine_references = 0 ∧ 0 < curr.machine_references then 1/5 else 0)
    + (if prev.measurements < curr.measurements then 1/10 else 0)

/-- The Content Transition confidence as the code computes it, written as
a sum of independent bonuses: the time and machine bonuses fire on any
increase of the respective counts. -/
def contentBonusSum (prev curr : ContentScore) : ℚ :=
  (if 2 < (prev.po_content : ℤ) - (curr.po_content : ℤ)
      ∧ 3 < (curr.router_content : ℤ) - (prev.router_content : ℤ) then (7/10 : ℚ) else 0)
    + (if prev.numeric_ops + 1 < curr.numeric_ops then 3/10 else 0)
    + (if prev.time_references < curr.time_references then 1/5 else 0)
    + (if prev.machine_references < curr.machine_references then 1/5 else 0)
    + (if prev.measurements < curr.measurements then 1/10 else 0)

/-- The sequential accumulation of `detect_by_content_transition` equals
the sum of its independent bonuses. -/
lemma pairContentConfidence_eq_sum (prev curr : ContentScore) :
    pairContentConfidence prev curr = contentBonusSum prev curr := by
  simp only [pairContentConfidence, contentBonusSum]
  split_ifs <;> ring

/-- C6 counterexample: for the pair below (time references 1 then 2,
machine references 1 then 2), the code adds both +0.2 bonuses because the
counts increased even though the references are not newly appearing, and
emits a result of confidence 0.8; under the claim's formula the pair
scores only 0.4 and would not be reported at all. -/
theorem C6_counterexample :
    pairContentConfidence ⟨0, 0, 0, 1, 1, 0⟩ ⟨0, 0, 2, 2, 2, 1⟩ = 4/5 ∧
    claimedContentPairConfidence ⟨0, 0, 0, 1, 1, 0⟩ ⟨0, 0, 2, 2, 2, 1⟩ = 2/5 ∧
    detect_by_content_transition [⟨0, 0, 0, 1, 1, 0⟩, ⟨0, 0, 2, 2, 2, 1⟩] =
      [⟨1, 4/5, "content_transition", ""⟩] ∧
    ¬ (1/2 : ℚ) < claimedContentPairConfidence ⟨0, 0, 0, 1, 1, 0⟩ ⟨0, 0, 2, 2, 2, 1⟩ := by
  decide

/-- Helper for C6: the pair loop enumerates adjacent pairs and keeps
exactly those passing the emission test. -/
lemma contentAux_eq_enumFrom (rest : List ContentScore) : ∀ (prev : ContentScore) (i : Nat),
    contentAux prev rest i =
      (((prev :: rest).zip rest).enumFrom i).filterMap (fun x =>
        if 1/2 < pairContentConfidence x.2.1 x.2.2 then
          some ⟨x.1, min (pairContentConfidence x.2.1 x.2.2) 1, "content_transition", ""⟩
        else none) := by
  induction rest with
  | nil => intro prev i; simp [contentAux]
  | cons curr rest ih =>
      intro prev i
      rw [List.zip_cons_cons]
      simp only [contentAux, List.enumFrom, List.filterMap_cons]
      rw [ih curr (i+1)]
      by_cases hc : 1/2 < pairContentConfidence prev curr
      · rw [if_pos hc, if_pos hc]
        simp
      · rw [if_neg hc, if_neg hc]
        simp

/-- C6 (amended): for every adjacent page pair, the transition confidence
is +0.7 for the PO-to-router content shift, +0.3 for an operation-mention
increase of more than 1, +0.2 for any increase in time references, +0.2
for any increase in machine references and +0.1 for any increase in
measurement mentions; the emitted value is the sum capped at 1 (hence in
[0,1]) and the later page of the pair is reported exactly when the sum
exceeds 0.5. -/
theorem C6_content_transition_scoring (contents : List ContentScore) :
    detect_by_content_transition contents =
      ((contents.zip contents.tail).enumFrom 1).filterMap (fun x =>
        if 1/2 < contentBonusSum x.2.1 x.2.2 then
          some ⟨x.1, min (contentBonusSum x.2.1 x.2.2) 1, "content_transition", ""⟩
        else none) ∧
    ∀ r ∈ detect_by_content_transition contents, 0 ≤ r.confidence ∧ r.confidence ≤ 1 := by
  have hfun : (fun x : Nat × (ContentScore × ContentScore) =>
        if 1/2 < pairContentConfidence x.2.1 x.2.2 then
          some (⟨x.1, min (pairContentConfidence x.2.1 x.2.2) 1,
            "content_transition", ""⟩ : DetectionResult)
        else none)
      = (fun x =>
        if 1/2 < contentBonusSum x.2.1 x.2.2 then
          some ⟨x.1, min (contentBonusSum x.2.1 x.2.2) 1, "content_transition", ""⟩
        else none) := by
    funext x
    rw [pairContentConfidence_eq_sum]
  have heq : detect_by_content_transition contents
      = ((contents.zip contents.tail).enumFrom 1).filterMap (fun x =>
        if 1/2 < pairContentConfidence x.2.1 x.2.2 then
          some ⟨x.1, min (pairContentConfidence x.2.1 x.2.2) 1, "content_transition", ""⟩
        else none) := by
    cases contents with
    | nil => simp [detect_by_content_transition]
    | cons c rest =>
        simpa only [detect_by_content_transition, List.tail_cons] using
          contentAux_eq_enumFrom rest c 1
  constructor
  · rw [heq, hfun]
  · intro r hr
    rw [heq] at hr
    rcases List.mem_filterMap.mp hr with ⟨x, _, hfx⟩
    by_cases hgt : 1/2 < pairContentConfidence x.2.1 x.2.2
    · rw [if_pos hgt] at hfx
      cases hfx
      constructor
      · exact le_min (le_of_lt (lt_trans (by norm_num) hgt)) zero_le_one
      · exact min_le_right _ _
    · rw [if_neg hgt] at hfx
      exact absurd hfx (by simp)

/-- Witness for C6 at a concrete pair: a PO-to-router shift emits the
later page with confidence 0.7, inside [0,1]. -/
theorem C6_witness :
    0 ≤ (⟨1, 7/10, "content_transition", ""⟩ : DetectionResult).confidence ∧
    (⟨1, 7/10, "content_transition", ""⟩ : DetectionResult).confidence ≤ 1 :=
  (C6_content_transition_scoring [⟨5, 0, 0, 0, 0, 0⟩, ⟨0, 10, 0, 0, 0, 0⟩]).2
    ⟨1, 7/10, "content_transition", ""⟩ (by decide)

/-- Every result of the layout pair loop carries a page index at least the
starting index. -/
lemma layoutAux_page_ge (rest : List PageLayout) : ∀ (prev : PageLayout) (i : Nat),
    ∀ r ∈ layoutAux prev rest i, i ≤ r.page_num := by
  induction rest with
  | nil => intro prev i r hr; simp [layoutAux] at hr
  | cons curr rest ih =>
      intro prev i r hr
      simp only [layoutAux] at hr
      rcases List.mem_append.mp hr with h1 | h2
      · by_cases hc : 2/5 < pairLayoutConfidence prev curr
        · rw [if_pos hc] at h1
          simp only [List.mem_singleton] at h1
          subst h1
          exact le_refl i
        · rw [if_neg hc] at h1
          simp at h1
      · exact Nat.le_of_succ_le (ih curr (i+1) r h2)

/-- Every result of the content pair loop carries a page index at least the
starting index. -/
lemma contentAux_page_ge (rest : List ContentScore) : ∀ (prev : ContentScore) (i : Nat),
    ∀ r ∈ contentAux prev rest i, i ≤ r.page_num := by
  induction rest with
  | nil => intro prev i r hr; simp [contentAux] at hr
  | cons curr rest ih =>
      intro prev i r hr
      simp only [contentAux] at hr
      rcases List.mem_append.mp hr with h1 | h2
      · by_cases hc : 1/2 < pairContentConfidence prev curr
        · rw [if_pos hc] at h1
          simp only [List.mem_singleton] at h1
          subst h1
          exact le_refl i
        · rw [if_neg hc] at h1
          simp at h1
      · exact Nat.le_of_succ_le (ih curr (i+1) r h2)

/-- Every result the text-pattern loop emits is tagged with its method. -/
lemma textAux_method (f : Option Nat) (ps : List PageMatches) : ∀ i,
    ∀ r ∈ textAux f i ps, r.method = "text_patterns" := by
  induction ps with
  | nil => intro i r hr; simp [textAux] at hr
  | cons p ps ih =>
      intro i r hr
      simp only [textAux] at hr
      by_cases hf : f = some i
      · rw [if_pos hf] at hr
        simp at hr
      · rw [if_neg hf] at hr
        cases he : emitTextResult i p with
        | none =>
            rw [he] at hr
            exact ih (i+1) r hr
        | some r0 =>
            rw [he] at hr
            rcases List.mem_cons.mp hr with h1 | h2
            · subst h1
              simp only [emitTextResult] at he
              by_cases hgt : 3/10 < pageRawConfidence p
              · rw [if_pos hgt] at he
                cases he
                rfl
              · rw [if_neg hgt] at he
                exact absurd he (by simp)
            · exact ih (i+1) r h2

/-- C10: the Layout Transition and Content Transition detectors never emit
a result for page index 0 (they only score a page against an existing
predecessor), both return nothing on a one-page document, and any result
for page 0 in the combined heuristic output can only come from the Text
Pattern Detector. -/
theorem C10_no_first_page_pair_results (tp : List PageMatches)
    (pages : List PageLayout) (scores : List ContentScore) :
    (∀ r ∈ detect_by_layout_analysis pages, 1 ≤ r.page_num) ∧
    (∀ r ∈ detect_by_content_transition scores, 1 ≤ r.page_num) ∧
    (∀ p, detect_by_layout_analysis [p] = []) ∧
    (∀ c, detect_by_content_transition [c] = []) ∧
    (∀ r ∈ detect_by_text_patterns tp ++ detect_by_layout_analysis pages
        ++ detect_by_content_transition scores,
      r.page_num = 0 → r.method = "text_patterns") := by
  refine ⟨?_, ?_, fun p => rfl, fun c => rfl, ?_⟩
  · intro r hr
    cases pages with
    | nil => simp [detect_by_layout_analysis] at hr
    | cons p rest => exact layoutAux_page_ge rest p 1 r hr
  · intro r hr
    cases scores with
    | nil => simp [detect_by_content_transition] at hr
    | cons c rest => exact contentAux_page_ge rest c 1 r hr
  · intro r hr hr0
    rcases List.mem_append.mp hr with h | h
    · rcases List.mem_append.mp h with ht | hl
      · exact textAux_method none tp 0 r ht
      · exfalso
        cases pages with
        | nil => simp [detect_by_layout_analysis] at hl
        | cons p rest =>
            have := layoutAux_page_ge rest p 1 r hl
            omega
    · exfalso
      cases scores with
      | nil => simp [detect_by_content_transition] at h
      | cons c rest =>
          have := contentAux_page_ge rest c 1 r h
          omega

/-- Witness for C10 at concrete inputs: an orientation change flags page 1
(never page 0), a content shift flags page 1, one-page inputs yield
nothing, and the page-0 result of the combined output is text-tagged. -/
theorem C10_witness :
    1 ≤ (⟨1, 3/5, "layout_analysis", ""⟩ : DetectionResult).page_num ∧
    1 ≤ (⟨1, 7/10, "content_transition", ""⟩ : DetectionResult).page_num ∧
    detect_by_layout_analysis [⟨false, none⟩] = [] ∧
    detect_by_content_transition [⟨5, 0, 0, 0, 0, 0⟩] = [] ∧
    (⟨0, 1/2, "text_patterns", ""⟩ : DetectionResult).method = "text_patterns" := by
  have h := C10_no_first_page_pair_results [⟨[1], [], [], [], []⟩]
    [⟨false, none⟩, ⟨true, none⟩] [⟨5, 0, 0, 0, 0, 0⟩, ⟨0, 10, 0, 0, 0, 0⟩]
  exact ⟨h.1 ⟨1, 3/5, "layout_analysis", ""⟩ (by decide),
    h.2.1 ⟨1, 7/10, "content_transition", ""⟩ (by decide),
    h.2.2.1 ⟨false, none⟩,
    h.2.2.2.1 ⟨5, 0, 0, 0, 0, 0⟩,
    h.2.2.2.2 ⟨0, 1/2, "text_patterns", ""⟩ (by decide) (by decide)⟩

/-- The running best confidence of the aggregation loop dominates its
start value and every processed page's combined score. -/
lemma bestFold_le (groups : List (Nat × List DetectionResult)) :
    ∀ (b0 : Option Nat) (c0 : ℚ),
      c0 ≤ (groups.foldl bestStep (b0, c0)).2 ∧
      ∀ g ∈ groups, pageScore g.2 ≤ (groups.foldl bestStep (b0, c0)).2 := by
  induction groups with
  | nil =>
      intro b0 c0
      exact ⟨le_refl _, by simp⟩
  | cons g gs ih =>
      intro b0 c0
      rw [List.foldl_cons]
      by_cases hc : c0 < pageScore g.2
      · have hstep : bestStep (b0, c0) g = (some g.1, pageScore g.2) := by
          simp [bestStep, hc]
        rw [hstep]
        obtain ⟨h1, h2⟩ := ih (some g.1) (pageScore g.2)
        refine ⟨le_of_lt (lt_of_lt_of_le hc h1), fun g' hg' => ?_⟩
        rcases List.mem_cons.mp hg' with h | h
        · rw [h]; exact h1
        · exact h2 g' h
      · have hstep : bestStep (b0, c0) g = (b0, c0) := by
          simp [bestStep, hc]
        rw [hstep]
        obtain ⟨h1, h2⟩ := ih b0 c0
        refine ⟨h1, fun g' hg' => ?_⟩
        rcases List.mem_cons.mp hg' with h | h
        · rw [h]; exact le_trans (not_lt.mp hc) h1
        · exact h2 g' h

/-- Characterization of the aggregation loop: if the best confidence never
rose above its start value the best page is unchanged, and if it rose, the
winning page is the first page in iteration order whose combined score
equals the final best confidence. -/
lemma bestFold_char (groups : List (Nat × List DetectionResult)) :
    ∀ (b0 : Option Nat) (c0 : ℚ),
      ((groups.foldl bestStep (b0, c0)).2 = c0 → (groups.foldl bestStep (b0, c0)).1 = b0) ∧
      (c0 < (groups.foldl bestStep (b0, c0)).2 →
        ((groups.find? (fun g =>
            decide (pageScore g.2 = (groups.foldl bestStep (b0, c0)).2))).map Prod.fst
          = (groups.foldl bestStep (b0, c0)).1 ∧
         ∃ g ∈ groups, pageScore g.2 = (groups.foldl bestStep (b0, c0)).2)) := by
  induction groups with
  | nil =>
      intro b0 c0
      exact ⟨fun _ => rfl, fun hlt => absurd hlt (lt_irrefl c0)⟩
  | cons g gs ih =>
      intro b0 c0
      rw [List.foldl_cons]
      by_cases hc : c0 < pageScore g.2
      · have hstep : bestStep (b0, c0) g = (some g.1, pageScore g.2) := by
          simp [bestStep, hc]
        rw [hstep]
        obtain ⟨hge, _⟩ := bestFold_le gs (some g.1) (pageScore g.2)
        constructor
        · intro heq
          exfalso
          have hlt2 := lt_of_lt_of_le hc hge
          rw [heq] at hlt2
          exact lt_irrefl c0 hlt2
        · intro _
          rcases eq_or_lt_of_le hge with heq | hlt2
          · have hpred : decide (pageScore g.2
                = (gs.foldl bestStep (some g.1, pageScore g.2)).2) = true :=
              decide_eq_true heq
            constructor
            · simp only [List.find?]
              rw [hpred]
              exact ((ih (some g.1) (pageScore g.2)).1 heq.symm).symm
            · exact ⟨g, List.mem_cons_self g gs, heq⟩
          · obtain ⟨ihf, ihe⟩ := (ih (some g.1) (pageScore g.2)).2 hlt2
            have hpred : decide (pageScore g.2
                = (gs.foldl bestStep (some g.1, pageScore g.2)).2) = false :=
              decide_eq_false (ne_of_lt hlt2)
            constructor
            · simp only [List.find?]
              rw [hpred]
              exact ihf
            · obtain ⟨g', hg', hs⟩ := ihe
              exact ⟨g', List.mem_cons_of_mem g hg', hs⟩
      · have hstep : bestStep (b0, c0) g = (b0, c0) := by
          simp [bestStep, hc]
        rw [hstep]
        obtain ⟨ih1, ih2⟩ := ih b0 c0
        refine ⟨ih1, fun hlt => ?_⟩
        obtain ⟨ihf, ihe⟩ := ih2 hlt
        have hneq : pageScore g.2 ≠ (gs.foldl bestStep (b0, c0)).2 :=
          ne_of_lt (lt_of_le_of_lt (not_lt.mp hc) hlt)
        have hpred : decide (pageScore g.2 = (gs.foldl bestStep (b0, c0)).2) = false :=
          decide_eq_false hneq
        constructor
        · simp only [List.find?]
          rw [hpred]
          exact ihf
        · obtain ⟨g', hg', hs⟩ := ihe
          exact ⟨g', List.mem_cons_of_mem g hg', hs⟩

/-- Appending a result to the page grouping never empties it. -/
lemma addResult_ne_nil (gs : List (Nat × List DetectionResult)) (r : DetectionResult) :
    addResult gs r ≠ [] := by
  cases gs with
  | nil => simp [addResult]
  | cons g gs =>
      simp only [addResult]
      split_ifs <;> simp

/-- Grouping a nonempty result list yields a nonempty grouping. -/
lemma foldl_addResult_ne_nil (rs : List DetectionResult) :
    ∀ gs, (gs ≠ [] ∨ rs ≠ []) → rs.foldl addResult gs ≠ [] := by
  induction rs with
  | nil =>
      intro gs h
      rcases h with h | h
      · simpa using h
      · exact absurd rfl h
  | cons r rs ih =>
      intro gs _
      rw [List.foldl_cons]
      exact ih (addResult gs r) (Or.inl (addResult_ne_nil gs r))

/-- Adding a positive-confidence result keeps every group nonempty with
positive member confidences. -/
lemma addResult_groups_good (gs : List (Nat × List DetectionResult)) (r : DetectionResult)
    (hg : ∀ g ∈ gs, g.2 ≠ [] ∧ ∀ x ∈ g.2, 0 < x.confidence) (hr : 0 < r.confidence) :
    ∀ g ∈ addResult gs r, g.2 ≠ [] ∧ ∀ x ∈ g.2, 0 < x.confidence := by
  induction gs with
  | nil =>
      intro g hgmem
      simp only [addResult, List.mem_singleton] at hgmem
      subst hgmem
      exact ⟨by simp, by simpa using hr⟩
  | cons g0 gs ih =>
      intro g hgmem
      simp only [addResult] at hgmem
      by_cases h0 : g0.1 = r.page_num
      · rw [if_pos h0] at hgmem
        rcases List.mem_cons.mp hgmem with h | h
        · subst h
          obtain ⟨hne0, hall0⟩ := hg g0 (List.mem_cons_self g0 gs)
          refine ⟨by simp, fun x hx => ?_⟩
          rcases List.mem_append.mp hx with hx | hx
          · exact hall0 x hx
          · simp only [List.mem_singleton] at hx
            subst hx
            exact hr
        · exact hg g (List.mem_cons_of_mem g0 h)
      · rw [if_neg h0] at hgmem
        rcases List.mem_cons.mp hgmem with h | h
        · rw [h]
          exact hg g0 (List.mem_cons_self g0 gs)
        · exact ih (fun g' hg' => hg g' (List.mem_cons_of_mem g0 hg')) g h

/-- All groups built from positive-confidence results are nonempty with
positive member confidences. -/
lemma foldl_addResult_good (rs : List DetectionResult) :
    ∀ gs, (∀ g ∈ gs, g.2 ≠ [] ∧ ∀ x ∈ g.2, 0 < x.confidence) →
      (∀ x ∈ rs, 0 < x.confidence) →
      ∀ g ∈ rs.foldl addResult gs, g.2 ≠ [] ∧ ∀ x ∈ g.2, 0 < x.confidence := by
  induction rs with
  | nil =>
      intro gs hg _ g hgm
      exact hg g (by simpa using hgm)
  | cons r rs ih =>
      intro gs hg hr
      rw [List.foldl_cons]
      exact ih (addResult gs r)
        (addResult_groups_good gs r hg (hr r (List.mem_cons_self r rs)))
        (fun x hx => hr x (List.mem_cons_of_mem r hx))

/-- A nonempty group of positive-confidence results has positive combined
score: its average is positive and the method-agreement bonus is
nonnegative. -/
lemma pageScore_pos (rs : List DetectionResult) (h0 : rs ≠ [])
    (hp : ∀ x ∈ rs, 0 < x.confidence) : 0 < pageScore rs := by
  have hmapne : rs.map (fun r => r.confidence) ≠ [] := by
    simpa using h0
  have hsum : 0 < (rs.map (fun r => r.confidence)).sum := by
    apply List.sum_pos
    · intro x hx
      rcases List.mem_map.mp hx with ⟨r, hr, rfl⟩
      exact hp r hr
    · exact hmapne
  have hlen : 0 < (rs.length : ℚ) := by
    exact_mod_cast List.length_pos.mpr h0
  have hdedup : 1 ≤ ((rs.map (fun r => r.method)).dedup.length : ℤ) := by
    have hd : (rs.map (fun r => r.method)).dedup ≠ [] := by
      rw [Ne, List.dedup_eq_nil]
      simpa using h0
    exact_mod_cast List.length_pos.mpr hd
  have hbonus : (0 : ℚ)
      ≤ ((((rs.map (fun r => r.method)).dedup.length : ℤ) - 1 : ℤ) : ℚ) * (1/10) := by
    apply mul_nonneg _ (by norm_num)
    have hz : (0 : ℤ) ≤ ((rs.map (fun r => r.method)).dedup.length : ℤ) - 1 := by omega
    exact_mod_cast hz
  have hfinal := add_pos_of_pos_of_nonneg (div_pos hsum hlen) hbonus
  unfold pageScore
  exact hfinal

/-- C5 (amended): for every nonempty collection of heuristic results
(each with positive confidence, as all three detectors guarantee), the
aggregator picks a page whose combined score — average confidence plus the
distinct-method bonus — is maximal over all grouped pages; when several
pages attain the maximum, the winner is the first of them in the grouping
iteration order, i.e. the order of first appearance in the combined result
list, which is not necessarily the lowest page index. -/
theorem C5_aggregator_selection (results : List DetectionResult)
    (hne : results ≠ []) (hpos : ∀ r ∈ results, 0 < r.confidence) :
    (∀ g ∈ groupByPage results, pageScore g.2 ≤ (findBest (groupByPage results)).2) ∧
    ((groupByPage results).find?
        (fun g => decide (pageScore g.2 = (findBest (groupByPage results)).2))).map Prod.fst
      = (findBest (groupByPage results)).1 ∧
    (findBest (groupByPage results)).1.isSome = true := by
  have hgne : groupByPage results ≠ [] :=
    foldl_addResult_ne_nil results [] (Or.inr hne)
  have hgood : ∀ g ∈ groupByPage results, g.2 ≠ [] ∧ ∀ x ∈ g.2, 0 < x.confidence :=
    foldl_addResult_good results [] (by simp) hpos
  have hscores : ∀ g ∈ groupByPage results, 0 < pageScore g.2 := fun g hg =>
    pageScore_pos g.2 (hgood g hg).1 (hgood g hg).2
  obtain ⟨g0, hg0⟩ := List.exists_mem_of_ne_nil _ hgne
  obtain ⟨hle0, hleall⟩ := bestFold_le (groupByPage results) none 0
  have h0lt : (0 : ℚ) < (findBest (groupByPage results)).2 :=
    lt_of_lt_of_le (hscores g0 hg0) (hleall g0 hg0)
  obtain ⟨hfind, hex⟩ := (bestFold_char (groupByPage results) none 0).2 h0lt
  have hfind2 : ((groupByPage results).find?
      (fun g => decide (pageScore g.2 = (findBest (groupByPage results)).2))).map Prod.fst
      = (findBest (groupByPage results)).1 := hfind
  have hex2 : ∃ g ∈ groupByPage results,
      pageScore g.2 = (findBest (groupByPage results)).2 := hex
  refine ⟨hleall, hfind2, ?_⟩
  obtain ⟨gm, hgm, hsm⟩ := hex2
  cases hf : (groupByPage results).find?
      (fun g => decide (pageScore g.2 = (findBest (groupByPage results)).2)) with
  | none =>
      exfalso
      exact (List.find?_eq_none.mp hf gm hgm) (decide_eq_true hsm)
  | some gf =>
      rw [hf] at hfind2
      rw [← hfind2]
      rfl

/-- C5 counterexample: two results of equal confidence on pages 5 and 2,
found by different methods, have equal (maximal) combined scores, yet the
winner is page 5 — the page whose result was grouped first — not the
lowest page index 2. -/
theorem C5_counterexample :
    groupByPage [⟨5, 3/5, "text_patterns", ""⟩, ⟨2, 3/5, "layout_analysis", ""⟩] =
      [(5, [⟨5, 3/5, "text_patterns", ""⟩]), (2, [⟨2, 3/5, "layout_analysis", ""⟩])] ∧
    pageScore [⟨5, 3/5, "text_patterns", ""⟩] = 3/5 ∧
    pageScore [⟨2, 3/5, "layout_analysis", ""⟩] = 3/5 ∧
    findBest (groupByPage [⟨5, 3/5, "text_patterns", ""⟩, ⟨2, 3/5, "layout_analysis", ""⟩])
      = (some 5, 3/5) ∧
    ¬ (findBest (groupByPage
        [⟨5, 3/5, "text_patterns", ""⟩, ⟨2, 3/5, "layout_analysis", ""⟩])).1 = some 2 := by
  decide

/-- Witness for C5's amended theorem at the tied two-page input. -/
theorem C5_witness :
    (∀ g ∈ groupByPage [(⟨5, 3/5, "text_patterns", ""⟩ : DetectionResult),
        ⟨2, 3/5, "layout_analysis", ""⟩],
      pageScore g.2 ≤ (findBest (groupByPage [⟨5, 3/5, "text_patterns", ""⟩,
        ⟨2, 3/5, "layout_analysis", ""⟩])).2) ∧
    ((groupByPage [(⟨5, 3/5, "text_patterns", ""⟩ : DetectionResult),
        ⟨2, 3/5, "layout_analysis", ""⟩]).find?
        (fun g => decide (pageScore g.2 = (findBest (groupByPage
          [⟨5, 3/5, "text_patterns", ""⟩, ⟨2, 3/5, "layout_analysis", ""⟩])).2))).map Prod.fst
      = (findBest (groupByPage [(⟨5, 3/5, "text_patterns", ""⟩ : DetectionResult),
          ⟨2, 3/5, "layout_analysis", ""⟩])).1 ∧
    (findBest (groupByPage [(⟨5, 3/5, "text_patterns", ""⟩ : DetectionResult),
        ⟨2, 3/5, "layout_analysis", ""⟩])).1.isSome = true :=
  C5_aggregator_selection _ (by decide) (by decide)
